import Mathlib

set_option autoImplicit false
set_option linter.unusedVariables false

namespace UrlShortener

/-! Shallow embedding of the url_shortener repository (Go).

Files embedded: store.go (URLMapping, URLStore and its five operations),
handler.go (the post-normalization core of HandleShorten and
isValidShortCode), the unnamed shortener file (GenerateShortCode,
NormalizeURL).

Modelling conventions: Go maps become association lists with unique-key
update semantics; the RWMutex disappears in this sequential model; the wall
clock is an explicit argument; the crypto/rand source is an explicit stream
of draws, each draw either a value below 62 or an error. -/

/-- URLMapping (store.go lines 10-15): one record per shortened URL.
CreatedAt is the instant supplied by the clock at insertion, modelled as a
natural number. Clicks is a Go int starting at 0 and only incremented; it is
modelled as a natural number (the Go int wrap at 2^63 is unreachable). -/
structure URLMapping where
  shortCode : String
  originalURL : String
  createdAt : Nat
  clicks : Nat
deriving DecidableEq, Repr

/-- URLStore (store.go lines 17-22): primary index urls (short code to
mapping) and reverse index (original URL to short code). -/
structure URLStore where
  urls : List (String × URLMapping)
  reverse : List (String × String)
deriving DecidableEq, Repr

/-- First-match lookup in an association list, the read half of a Go map. -/
def lookupA {β : Type} (k : String) : List (String × β) → Option β
  | [] => none
  | (k', v) :: rest => if k' = k then some v else lookupA k rest

/-- Go map assignment m[k] = v: replace the first entry with key k, or
append a fresh entry when the key is absent. -/
def mapUpd {β : Type} : List (String × β) → String → β → List (String × β)
  | [], k, v => [(k, v)]
  | (k', v') :: rest, k, v =>
    if k' = k then (k, v) :: rest else (k', v') :: mapUpd rest k v

/-- NewURLStore (store.go lines 24-30): both indexes empty. -/
def NewURLStore : URLStore := ⟨[], []⟩

/-- Save (store.go lines 32-52): fail if the short code is already in the
primary index; otherwise insert a fresh record with clicks 0 into the
primary index and point the reverse index entry for the URL at this code.
The Go method mutates the receiver and returns only an error; here it
returns the error message (if any) together with the resulting store. -/
def URLStore.Save (s : URLStore) (shortCode originalURL : String) (now : Nat) :
    Option String × URLStore :=
  match lookupA shortCode s.urls with
  | some _ => (some "short code already exists", s)
  | none =>
    (none, ⟨mapUpd s.urls shortCode ⟨shortCode, originalURL, now, 0⟩,
            mapUpd s.reverse originalURL shortCode⟩)

/-- Get (store.go lines 54-65): primary-index lookup. -/
def URLStore.Get (s : URLStore) (shortCode : String) : Option URLMapping :=
  lookupA shortCode s.urls

/-- The in-place mapping.Clicks++ of store.go line 73. -/
def bumpClicks (m : URLMapping) : URLMapping :=
  ⟨m.shortCode, m.originalURL, m.createdAt, m.clicks + 1⟩

/-- Increment the clicks of the entry with the given key, if present. -/
def incrClicksList : List (String × URLMapping) → String → List (String × URLMapping)
  | [], _ => []
  | (k, m) :: rest, c =>
    if k = c then (k, bumpClicks m) :: rest else (k, m) :: incrClicksList rest c

/-- IncrementClicks (store.go lines 67-75): bump the click counter of an
existing record; silently do nothing when the code is absent. -/
def URLStore.IncrementClicks (s : URLStore) (shortCode : String) : URLStore :=
  ⟨incrClicksList s.urls shortCode, s.reverse⟩

/-- GetByOriginalURL (store.go lines 77-84): reverse-index lookup. -/
def URLStore.GetByOriginalURL (s : URLStore) (originalURL : String) : Option String :=
  lookupA originalURL s.reverse

/-- GetAll (store.go lines 86-96): all mappings (Go map iteration order is
unspecified; the model returns them in index order). -/
def URLStore.GetAll (s : URLStore) : List URLMapping :=
  s.urls.map (fun p => p.2)

/-- Exists (store.go lines 98-104); named existsCode because the Go name is
a Lean keyword. -/
def URLStore.existsCode (s : URLStore) (shortCode : String) : Bool :=
  (lookupA shortCode s.urls).isSome

/-- One Mapping Store operation, for stating invariants over operation
sequences. Save carries the clock value observed at that call. -/
inductive StoreOp where
  | save (shortCode originalURL : String) (now : Nat)
  | get (shortCode : String)
  | incrementClicks (shortCode : String)
  | getByOriginalURL (originalURL : String)
  | getAll
  | existsCode (shortCode : String)
deriving DecidableEq, Repr

/-- State transition of one Store operation. Reads return values but do not
change the store; a failed Save leaves the store as it was. -/
def applyOp (s : URLStore) : StoreOp → URLStore
  | StoreOp.save c u now => (URLStore.Save s c u now).2
  | StoreOp.get _ => s
  | StoreOp.incrementClicks c => URLStore.IncrementClicks s c
  | StoreOp.getByOriginalURL _ => s
  | StoreOp.getAll => s
  | StoreOp.existsCode _ => s

/-- The store after a sequence of operations starting from the empty store. -/
def runOps (ops : List StoreOp) : URLStore :=
  ops.foldl applyOp NewURLStore

/-- The dual-index mutual-consistency property exactly as claim C1 states
it: every code in the primary index is returned by reverse lookup of its
URL, and every reverse entry points to a primary record with that URL. -/
def DualIndexConsistent (s : URLStore) : Prop :=
  (∀ c m, lookupA c s.urls = some m → lookupA m.originalURL s.reverse = some c) ∧
  (∀ u c, lookupA u s.reverse = some c →
    ∃ m, lookupA c s.urls = some m ∧ m.originalURL = u)

/-- The direction of the invariant the code does maintain: every reverse
entry points to a primary record holding exactly that URL. -/
def ReverseConsistent (s : URLStore) : Prop :=
  ∀ u c, lookupA u s.reverse = some c →
    ∃ m, lookupA c s.urls = some m ∧ m.originalURL = u

/-- The weakened primary-to-reverse direction: every primary record has its
URL present as a reverse-index key (possibly mapped to a different code). -/
def WeakPrimaryConsistent (s : URLStore) : Prop :=
  ∀ c m, lookupA c s.urls = some m → ∃ c', lookupA m.originalURL s.reverse = some c'

/-- The base62 alphabet (shortener file line 10). -/
def base62Charset : String :=
  "abcdefghijklmnopqrstuvwxyzABCDEFGHIJKLMNOPQRSTUVWXYZ0123456789"

/-- Indexing base62Charset at a draw below 62, as in
base62Charset at position n. The getD default is never reached: the charset
has exactly 62 characters. -/
def base62Char (n : Fin 62) : Char :=
  base62Charset.toList.getD n.val 'a'

/-- GenerateShortCode (shortener file lines 12-30). The crypto/rand source
is an explicit stream: draw i is either an error (none) or a value below
62. On a draw error Go silently writes the byte a and continues. A run
consumes exactly one draw per output position. -/
def GenerateShortCode (src : String) (length : Int)
    (draws : Nat → Option (Fin 62)) : String :=
  let len : Nat := if length ≤ 0 then 6 else length.toNat
  String.mk ((List.range len).map fun i =>
    match draws i with
    | none => 'a'
    | some n => base62Char n)

/-- UTF-8 byte size of one character, as Go len counts string bytes. -/
def charUtf8Size (c : Char) : Nat :=
  if c.toNat < 0x80 then 1
  else if c.toNat < 0x800 then 2
  else if c.toNat < 0x10000 then 3
  else 4

/-- Go len(s): the UTF-8 byte length of the string. -/
def goLen (s : String) : Nat := (s.toList.map charUtf8Size).sum

/-- isValidShortCode (handler.go lines 192-208): byte length in [3,20] and
every rune a lowercase letter, uppercase letter, digit, dash or
underscore. -/
def isValidShortCode (code : String) : Bool :=
  if goLen code < 3 || goLen code > 20 then false
  else code.toList.all fun char =>
    (('a' ≤ char && char ≤ 'z') || ('A' ≤ char && char ≤ 'Z') ||
     ('0' ≤ char && char ≤ '9') || char == '-' || char == '_')

/-- The character class exactly as claim C5 words it: ASCII alphanumeric,
dash or underscore. -/
def claimCodeChar (c : Char) : Bool :=
  (('a' ≤ c && c ≤ 'z') || ('A' ≤ c && c ≤ 'Z') ||
   ('0' ≤ c && c ≤ '9') || c == '-' || c == '_')

/-- Outcome of the store-facing core of HandleShorten, one constructor per
response path of handler.go. -/
inductive ShortenOutcome where
  | success (code : String)
  | invalidCode
  | customCodeConflict
  | generationExhausted
  | saveFailed (msg : String)
deriving DecidableEq, Repr

/-- maxAttempts (handler.go line 86). -/
def maxAttempts : Nat := 10

/-- The code generated on attempt i: each GenerateShortCode call consumes
six draws from the shared random source, so attempt i reads draws
6i .. 6i+5. -/
def genCodeAt (rawURL : String) (draws : Nat → Option (Fin 62)) (i : Nat) : String :=
  GenerateShortCode rawURL 6 (fun j => draws (6 * i + j))

/-- The collision-handling loop of HandleShorten (handler.go lines 85-97):
attempt counter i, remaining iterations as fuel (fuel starts at
maxAttempts and is never the binding limit). Returns the chosen code, if
any, together with the number of generation attempts made. -/
def genLoopAux (s : URLStore) (rawURL : String) (draws : Nat → Option (Fin 62)) :
    Nat → Nat → Option String × Nat
  | i, 0 => (none, i)
  | i, fuel + 1 =>
    if s.existsCode (genCodeAt rawURL draws i) = false then
      (some (genCodeAt rawURL draws i), i + 1)
    else if i = maxAttempts - 1 then (none, i + 1)
    else genLoopAux s rawURL draws (i + 1) fuel

def genLoop (s : URLStore) (rawURL : String) (draws : Nat → Option (Fin 62)) :
    Option String × Nat :=
  genLoopAux s rawURL draws 0 maxAttempts

/-- The tail of HandleShorten (handler.go lines 99-106): save the mapping
and answer with the chosen code, surfacing a Save error as a 500. -/
def finishSave (s : URLStore) (shortCode normalized : String) (now : Nat) :
    ShortenOutcome × URLStore :=
  match URLStore.Save s shortCode normalized now with
  | (some msg, s') => (ShortenOutcome.saveFailed msg, s')
  | (none, s') => (ShortenOutcome.success shortCode, s')

/-- The store-facing core of HandleShorten (handler.go lines 65-106),
starting after URL validation and normalization: dedup check on the
normalized URL; then the custom-code path (syntax check, conflict check)
or the auto-generation path; then Save. rawURL is the unnormalized
request URL, which Go passes to GenerateShortCode (where it is ignored);
an empty customCode means none was supplied, as in the Go struct. -/
def shortenCore (s : URLStore) (rawURL normalized customCode : String)
    (draws : Nat → Option (Fin 62)) (now : Nat) : ShortenOutcome × URLStore :=
  match URLStore.GetByOriginalURL s normalized with
  | some existingCode => (ShortenOutcome.success existingCode, s)
  | none =>
    if customCode ≠ "" then
      if isValidShortCode customCode = false then (ShortenOutcome.invalidCode, s)
      else if s.existsCode customCode = true then (ShortenOutcome.customCodeConflict, s)
      else finishSave s customCode normalized now
    else
      match genLoop s rawURL draws with
      | (some shortCode, _) => finishSave s shortCode normalized now
      | (none, _) => (ShortenOutcome.generationExhausted, s)

/-- A random stream that always draws 0: every generated code is aaaaaa. -/
def drawsZero : Nat → Option (Fin 62) := fun _ => some 0

/-- A random stream that always errors. -/
def drawsFail : Nat → Option (Fin 62) := fun _ => none

/-- A one-record store holding the code aaaaaa, on which every zero-draw
generation attempt collides. -/
def storeAaaaaa : URLStore := (URLStore.Save NewURLStore "aaaaaa" "w" 0).2

/-- A store with a single mapping abc for URL u, for dedup witnesses. -/
def storeAbcU : URLStore := (URLStore.Save NewURLStore "abc" "u" 0).2

/-- The store after one fresh auto-generating shorten of URL u under the
all-zero draw stream. -/
def storeAfterFirst : URLStore := (shortenCore NewURLStore "r" "u" "" drawsZero 0).2

/-! Embedding of the fragment of the Go standard library net/url that
NormalizeURL (shortener file lines 44-68) is built on: url.Parse and
URL.String, ported statement by statement from the stdlib source, but
restricted to percent-free URLs whose components contain only characters
that Go's per-component escaping maps to themselves, and without userinfo.
Inputs outside that domain are rejected (none); inside the domain the
model agrees with Go. -/

/-- ASCII control byte, as stringContainsCTLByte tests. -/
def isCTL (c : Char) : Bool := c.toNat < 0x20 || c.toNat == 0x7f

/-- strings.Cut at the first occurrence of sep: (before, after, found). -/
def cutList (sep : Char) : List Char → List Char × List Char × Bool
  | [] => ([], [], false)
  | c :: cs =>
    if c = sep then ([], cs, true)
    else
      let r := cutList sep cs
      (c :: r.1, r.2.1, r.2.2)

/-- Split at the last occurrence of sep: (before, after), none if absent. -/
def splitAtLast (sep : Char) (l : List Char) : Option (List Char × List Char) :=
  match cutList sep l.reverse with
  | (afterRev, beforeRev, true) => some (beforeRev.reverse, afterRev.reverse)
  | (_, _, false) => none

/-- Accumulator loop of strings.Split on a one-character separator. -/
def splitAllAux (sep : Char) : List Char → List Char → List (List Char)
  | [], acc => [acc.reverse]
  | c :: cs, acc =>
    if c = sep then acc.reverse :: splitAllAux sep cs []
    else splitAllAux sep cs (c :: acc)

/-- strings.Split on a one-character separator. -/
def splitAll (sep : Char) (l : List Char) : List (List Char) := splitAllAux sep l []

/-- Does the list end with the given suffix (strings.HasSuffix). -/
def endsWithL (l suffix : List Char) : Bool :=
  (l.reverse.take suffix.length) == suffix.reverse

def isSchemeAlpha (c : Char) : Bool := ('a' ≤ c && c ≤ 'z') || ('A' ≤ c && c ≤ 'Z')

def isSchemeExtra (c : Char) : Bool :=
  ('0' ≤ c && c ≤ '9') || c == '+' || c == '-' || c == '.'

/-- Scan loop of net/url getScheme: acc is the scheme read so far, the
second list the remaining input; none is the missing-protocol-scheme
error; a URL with no scheme yields an empty scheme and the whole input. -/
def getSchemeAux (orig : List Char) (acc : List Char) :
    List Char → Option (List Char × List Char)
  | [] => some ([], orig)
  | c :: cs =>
    if isSchemeAlpha c then getSchemeAux orig (acc ++ [c]) cs
    else if isSchemeExtra c then
      if acc = [] then some ([], orig) else getSchemeAux orig (acc ++ [c]) cs
    else if c = ':' then
      if acc = [] then none else some (acc, cs)
    else some ([], orig)

/-- getScheme of net/url: the scheme and the rest of the URL. -/
def getSchemeL (l : List Char) : Option (List Char × List Char) := getSchemeAux l [] l

def isDigitCh (c : Char) : Bool := '0' ≤ c && c ≤ '9'

/-- validOptionalPort of net/url: empty, or a colon followed by digits. -/
def validOptionalPort : List Char → Bool
  | [] => true
  | c :: rest => c == ':' && rest.all isDigitCh

/-- Characters Go's escape leaves unchanged in the host component:
alphanumerics, the RFC 3986 unreserved marks, and the sub-delims plus the
extra host characters of net/url shouldEscape (encodeHost). -/
def hostSafeChar (c : Char) : Bool :=
  ('a' ≤ c && c ≤ 'z') || ('A' ≤ c && c ≤ 'Z') || ('0' ≤ c && c ≤ '9') ||
  c == '-' || c == '_' || c == '.' || c == '~' ||
  c == '!' || c == '$' || c == '&' || c == '\'' || c == '(' || c == ')' ||
  c == '*' || c == '+' || c == ',' || c == ';' || c == '=' || c == ':' ||
  c == '[' || c == ']' || c == '<' || c == '>' || c == '"'

/-- Characters Go's escape leaves unchanged in the path component
(shouldEscape with encodePath). -/
def pathSafeChar (c : Char) : Bool :=
  ('a' ≤ c && c ≤ 'z') || ('A' ≤ c && c ≤ 'Z') || ('0' ≤ c && c ≤ '9') ||
  c == '-' || c == '_' || c == '.' || c == '~' ||
  c == '$' || c == '&' || c == '+' || c == ',' || c == '/' || c == ':' ||
  c == ';' || c == '=' || c == '@'

/-- Characters Go's escape leaves unchanged in the fragment component
(shouldEscape with encodeFragment). -/
def fragSafeChar (c : Char) : Bool :=
  pathSafeChar c || c == '?' || c == '!' || c == '(' || c == ')' || c == '*'

/-- parseHost of net/url, on percent-free hosts over hostSafeChar (hosts
with other characters are outside this embedding's domain): a bracketed
host needs a closing bracket followed by a valid optional port; otherwise
anything after the last colon must be a valid port. -/
def parseHost (host : List Char) : Option (List Char) :=
  if host.all hostSafeChar = false then none
  else if host.head? = some '[' then
    match splitAtLast ']' host with
    | none => none
    | some (_, colonPort) => if validOptionalPort colonPort then some host else none
  else
    match splitAtLast ':' host with
    | none => some host
    | some (_, afterColon) =>
      if validOptionalPort (':' :: afterColon) then some host else none

/-- parseAuthority of net/url; userinfo is outside this embedding's
domain. -/
def parseAuthority (authority : List Char) : Option (List Char) :=
  if authority.contains '@' then none
  else parseHost authority

/-- The URL record of net/url restricted to the fields this embedding
needs; opq is the Opaque field (renamed: the Go field name collides with a
Lean keyword). User is always absent in this embedding's domain. -/
structure GoURL where
  scheme : String
  opq : String
  host : String
  path : String
  forceQuery : Bool
  rawQuery : String
  fragment : String
  omitHost : Bool
deriving DecidableEq, Repr

/-- The tail of net/url parse() after the opaque block: authority
extraction, the omit-host case, and setPath (which over the percent-free
domain only checks the character set and stores the path verbatim). -/
def urlParseAfterScheme (scheme rest1 rawQuery : List Char) (forceQuery : Bool) :
    Option GoURL :=
  if (scheme ≠ [] ∨ ¬ (rest1.take 3 = ['/', '/', '/'])) ∧ rest1.take 2 = ['/', '/'] then
    let afterSlashes := rest1.drop 2
    let c := cutList '/' afterSlashes
    let authority := c.1
    let rest2 := if c.2.2 then '/' :: c.2.1 else []
    match parseAuthority authority with
    | none => none
    | some host =>
      if rest2.all pathSafeChar = false then none
      else some ⟨String.mk scheme, "", String.mk host, String.mk rest2,
        forceQuery, String.mk rawQuery, "", false⟩
  else if scheme ≠ [] ∧ rest1.head? = some '/' then
    if rest1.all pathSafeChar = false then none
    else some ⟨String.mk scheme, "", "", String.mk rest1,
      forceQuery, String.mk rawQuery, "", true⟩
  else
    if rest1.all pathSafeChar = false then none
    else some ⟨String.mk scheme, "", "", String.mk rest1,
      forceQuery, String.mk rawQuery, "", false⟩

/-- net/url parse(rawURL, viaRequest=false), ported statement by
statement: control-character check, the star special case, scheme
splitting and lowering, query splitting with the force-query case, the
opaque early return with the first-segment colon check, then the tail
above. -/
def urlParseCore (rawURL : List Char) : Option GoURL :=
  if rawURL.any isCTL then none
  else if rawURL = ['*'] then some ⟨"", "", "", "*", false, "", "", false⟩
  else
    match getSchemeL rawURL with
    | none => none
    | some (schemeRaw, rest0) =>
      let scheme := schemeRaw.map Char.toLower
      let hasForce : Bool :=
        if (rest0.getLast? = some '?') ∧ (rest0.dropLast.contains '?') = false then true
        else false
      let rest1 := if hasForce then rest0.dropLast else (cutList '?' rest0).1
      let rawQuery := if hasForce then [] else (cutList '?' rest0).2.1
      if rest1.head? ≠ some '/' then
        if scheme ≠ [] then
          some ⟨String.mk scheme, String.mk rest1, "", "", hasForce, String.mk rawQuery,
            "", false⟩
        else if ((cutList '/' rest1).1).contains ':' then none
        else urlParseAfterScheme scheme rest1 rawQuery hasForce
      else urlParseAfterScheme scheme rest1 rawQuery hasForce

/-- url.Parse of net/url: split the fragment at the first hash, parse the
rest, then set the (percent-free) fragment when nonempty. -/
def urlParse (raw : String) : Option GoURL :=
  let c := cutList '#' raw.toList
  match urlParseCore c.1 with
  | none => none
  | some u =>
    if c.2.1 = [] then some u
    else if (c.2.1).all fragSafeChar = false then none
    else some ⟨u.scheme, u.opq, u.host, u.path, u.forceQuery, u.rawQuery,
      String.mk c.2.1, u.omitHost⟩

/-- URL.String of net/url over this embedding's domain, where component
escaping is the identity: scheme colon, opaque or authority plus path
(with the leading-slash fix and the dot-slash fix), query, fragment. -/
def GoURL.toStr (u : GoURL) : String :=
  let schemePart : List Char := if u.scheme ≠ "" then u.scheme.toList ++ [':'] else []
  let core : List Char :=
    if u.opq ≠ "" then schemePart ++ u.opq.toList
    else
      let auth : List Char :=
        if u.scheme ≠ "" ∨ u.host ≠ "" then
          if u.omitHost ∧ u.host = "" then []
          else (if u.host ≠ "" ∨ u.path ≠ "" then ['/', '/'] else []) ++ u.host.toList
        else []
      let p := u.path.toList
      let slashFix : List Char :=
        if p ≠ [] ∧ p.head? ≠ some '/' ∧ u.host ≠ "" then ['/'] else []
      let pre := schemePart ++ auth ++ slashFix
      let dotFix : List Char :=
        if pre = [] ∧ ((cutList '/' p).1).contains ':' then ['.', '/'] else []
      pre ++ dotFix ++ p
  let afterQ := core ++ (if u.forceQuery ∨ u.rawQuery ≠ "" then '?' :: u.rawQuery.toList else [])
  String.mk (afterQ ++ (if u.fragment ≠ "" then '#' :: u.fragment.toList else []))

/-- strings.TrimRight(path, "/"). -/
def trimTrailingSlashes (s : String) : String :=
  String.mk ((s.toList.reverse.dropWhile fun c => c == '/').reverse)

/-- NormalizeURL (shortener file lines 44-68) over the net/url model
above: parse, lowercase the host, strip an explicit default port by taking
the part of the host before the first colon (strings.Split(host, ":")[0]),
trim trailing slashes of non-root paths, and re-serialize. -/
def NormalizeURL (u : String) : Option String :=
  match urlParse u with
  | none => none
  | some parsed =>
    let host1 := String.mk (parsed.host.toList.map Char.toLower)
    let host2 :=
      if (parsed.scheme = "http" ∧ endsWithL host1.toList [':', '8', '0'] = true) ∨
         (parsed.scheme = "https" ∧ endsWithL host1.toList [':', '4', '4', '3'] = true) then
        String.mk ((splitAll ':' host1.toList).headD [])
      else host1
    let path2 := if parsed.path ≠ "/" then trimTrailingSlashes parsed.path else parsed.path
    some (GoURL.toStr ⟨parsed.scheme, parsed.opq, host2, path2, parsed.forceQuery,
      parsed.rawQuery, parsed.fragment, parsed.omitHost⟩)

-- ===== Theorems =====

theorem lookupA_mapUpd_self {β : Type} (l : List (String × β)) (k : String) (v : β) :
    lookupA k (mapUpd l k v) = some v := by
  induction l with
  | nil => simp [mapUpd, lookupA]
  | cons hd tl ih =>
    obtain ⟨k', v'⟩ := hd
    by_cases h : k' = k
    · simp [mapUpd, h, lookupA]
    · simp [mapUpd, h, lookupA, ih]

theorem lookupA_mapUpd_ne {β : Type} (l : List (String × β)) (k k' : String) (v : β)
    (h : k' ≠ k) : lookupA k' (mapUpd l k v) = lookupA k' l := by
  have hne : ¬ (k = k') := fun hh => h hh.symm
  induction l with
  | nil => simp [mapUpd, lookupA, hne]
  | cons hd tl ih =>
    obtain ⟨k0, v0⟩ := hd
    by_cases hk : k0 = k
    · subst hk
      simp [mapUpd, lookupA, hne]
    · simp [mapUpd, hk, lookupA, ih]

theorem mapUpd_eq_append {β : Type} (l : List (String × β)) (k : String) (v : β)
    (h : lookupA k l = none) : mapUpd l k v = l ++ [(k, v)] := by
  induction l with
  | nil => simp [mapUpd]
  | cons hd tl ih =>
    obtain ⟨k0, v0⟩ := hd
    by_cases hk : k0 = k
    · simp [lookupA, hk] at h
    · simp [lookupA, hk] at h
      simp [mapUpd, hk, ih h]

theorem lookupA_incrClicksList (l : List (String × URLMapping)) (c k : String) :
    lookupA k (incrClicksList l c) =
      if k = c then (lookupA k l).map bumpClicks else lookupA k l := by
  induction l with
  | nil => simp [incrClicksList, lookupA]
  | cons hd tl ih =>
    obtain ⟨k0, m0⟩ := hd
    by_cases hk : k0 = c
    · subst hk
      by_cases hkc : k0 = k
      · subst hkc
        simp [incrClicksList, lookupA]
      · have : k ≠ k0 := fun hh => hkc hh.symm
        simp [incrClicksList, lookupA, hkc, this]
    · by_cases hkc : k0 = k
      · subst hkc
        have : ¬ (k0 = c) := hk
        simp [incrClicksList, this, lookupA]
      · simp [incrClicksList, hk, lookupA, hkc, ih]

theorem incrClicksList_of_absent (l : List (String × URLMapping)) (c : String)
    (h : lookupA c l = none) : incrClicksList l c = l := by
  induction l with
  | nil => simp [incrClicksList]
  | cons hd tl ih =>
    obtain ⟨k0, m0⟩ := hd
    by_cases hk : k0 = c
    · simp [lookupA, hk] at h
    · simp [lookupA, hk] at h
      simp [incrClicksList, hk, ih h]

/-- C2: Save returns an error exactly when the code is already in the
primary index; on error both indexes are completely unchanged; on success
the new record with this code, this URL and zero clicks is added to the
primary index and the reverse index entry for the URL now names this code. -/
theorem C2_save_error_iff_present (s : URLStore) (c u : String) (now : Nat) :
    ((URLStore.Save s c u now).1.isSome = true ↔ (lookupA c s.urls).isSome = true) ∧
    ((lookupA c s.urls).isSome = true →
      URLStore.Save s c u now = (some "short code already exists", s)) ∧
    (lookupA c s.urls = none →
      URLStore.Save s c u now =
        (none, ⟨mapUpd s.urls c ⟨c, u, now, 0⟩, mapUpd s.reverse u c⟩) ∧
      lookupA c (URLStore.Save s c u now).2.urls = some ⟨c, u, now, 0⟩ ∧
      lookupA u (URLStore.Save s c u now).2.reverse = some c) := by
  refine ⟨?_, ?_, ?_⟩
  · cases h : lookupA c s.urls <;> simp [URLStore.Save, h]
  · intro h
    cases hh : lookupA c s.urls with
    | none => rw [hh] at h; simp at h
    | some m => simp [URLStore.Save, hh]
  · intro h
    refine ⟨by simp [URLStore.Save, h], ?_, ?_⟩
    · simp [URLStore.Save, h, lookupA_mapUpd_self]
    · simp [URLStore.Save, h, lookupA_mapUpd_self]

/-- C2 witness: on a store holding code a, saving code a again errors and
changes nothing, and on the empty store saving code a succeeds and installs
the record. -/
theorem C2_save_error_iff_present_witness :
    URLStore.Save (URLStore.Save NewURLStore "a" "u" 0).2 "a" "v" 1 =
      (some "short code already exists", (URLStore.Save NewURLStore "a" "u" 0).2) ∧
    lookupA "a" (URLStore.Save NewURLStore "a" "u" 0).2.urls = some ⟨"a", "u", 0, 0⟩ :=
  ⟨(C2_save_error_iff_present (URLStore.Save NewURLStore "a" "u" 0).2 "a" "v" 1).2.1
      (by decide),
   ((C2_save_error_iff_present NewURLStore "a" "u" 0).2.2 (by decide)).2.1⟩

/-- C6: IncrementClicks never touches the reverse index; on an absent code
it is a no-op returning the store unchanged (and no error: the operation
returns no error at all); on a present code it bumps exactly that record
by one click, leaving the record's code, URL and creation time and every
other record unchanged; a click count never decreases. -/
theorem C6_increment_clicks_frame (s : URLStore) (c : String) :
    (URLStore.IncrementClicks s c).reverse = s.reverse ∧
    (lookupA c s.urls = none → URLStore.IncrementClicks s c = s) ∧
    (∀ m, lookupA c s.urls = some m →
      lookupA c (URLStore.IncrementClicks s c).urls =
        some ⟨m.shortCode, m.originalURL, m.createdAt, m.clicks + 1⟩) ∧
    (∀ c', c' ≠ c →
      lookupA c' (URLStore.IncrementClicks s c).urls = lookupA c' s.urls) ∧
    (∀ c' m m', lookupA c' s.urls = some m →
      lookupA c' (URLStore.IncrementClicks s c).urls = some m' →
      m.clicks ≤ m'.clicks) := by
  refine ⟨rfl, ?_, ?_, ?_, ?_⟩
  · intro h
    simp [URLStore.IncrementClicks, incrClicksList_of_absent s.urls c h]
  · intro m h
    simp [URLStore.IncrementClicks, lookupA_incrClicksList, h, bumpClicks]
  · intro c' h
    simp [URLStore.IncrementClicks, lookupA_incrClicksList, h]
  · intro c' m m' h h'
    rw [URLStore.IncrementClicks] at h'
    rw [lookupA_incrClicksList] at h'
    by_cases hc : c' = c
    · rw [if_pos hc, h] at h'
      have h2' : bumpClicks m = m' := by simpa using h'
      cases h2'
      simp only [bumpClicks]
      omega
    · rw [if_neg hc, h] at h'
      have h2' : m = m' := by simpa using h'
      cases h2'
      exact le_refl _

/-- C6 witness: on a one-record store, bumping that record yields one click
and keeps the other fields, and bumping a missing code changes nothing. -/
theorem C6_increment_clicks_frame_witness :
    lookupA "a" (URLStore.IncrementClicks (URLStore.Save NewURLStore "a" "u" 0).2 "a").urls =
      some ⟨"a", "u", 0, 1⟩ ∧
    URLStore.IncrementClicks (URLStore.Save NewURLStore "a" "u" 0).2 "zz" =
      (URLStore.Save NewURLStore "a" "u" 0).2 :=
  ⟨(C6_increment_clicks_frame (URLStore.Save NewURLStore "a" "u" 0).2 "a").2.2.1
      ⟨"a", "u", 0, 0⟩ (by decide),
   (C6_increment_clicks_frame (URLStore.Save NewURLStore "a" "u" 0).2 "zz").2.1 (by decide)⟩

/-- C1 counterexample: the sequence Save a u, Save b u (both succeed: the
codes differ) leaves the primary index holding code a with URL u while the
reverse lookup of u returns b, so the mutual-consistency property claimed
for every sequence of Store operations fails. -/
theorem C1_dual_index_counterexample :
    ¬ DualIndexConsistent (runOps [StoreOp.save "a" "u" 0, StoreOp.save "b" "u" 1]) := by
  intro h
  have h1 := h.1 "a" ⟨"a", "u", 0, 0⟩ (by decide)
  simp only [show (⟨"a", "u", 0, 0⟩ : URLMapping).originalURL = "u" from rfl] at h1
  have : lookupA "u" (runOps [StoreOp.save "a" "u" 0, StoreOp.save "b" "u" 1]).reverse
      = some "b" := by decide
  rw [this] at h1
  simp at h1

theorem reverseConsistent_empty : ReverseConsistent NewURLStore := by
  intro u c h
  simp [NewURLStore, lookupA] at h

theorem weakPrimaryConsistent_empty : WeakPrimaryConsistent NewURLStore := by
  intro c m h
  simp [NewURLStore, lookupA] at h

theorem consistency_preserved (s : URLStore) (op : StoreOp)
    (h1 : ReverseConsistent s) (h2 : WeakPrimaryConsistent s) :
    ReverseConsistent (applyOp s op) ∧ WeakPrimaryConsistent (applyOp s op) := by
  cases op with
  | save c u now =>
    show ReverseConsistent (URLStore.Save s c u now).2 ∧
      WeakPrimaryConsistent (URLStore.Save s c u now).2
    cases hc : lookupA c s.urls with
    | some m => simp [URLStore.Save, hc]; exact ⟨h1, h2⟩
    | none =>
      simp only [URLStore.Save, hc]
      constructor
      · intro u' c' hlk
        by_cases hu : u' = u
        · subst hu
          rw [lookupA_mapUpd_self] at hlk
          cases hlk
          exact ⟨⟨c, u', now, 0⟩, lookupA_mapUpd_self _ _ _, rfl⟩
        · rw [lookupA_mapUpd_ne _ _ _ _ hu] at hlk
          obtain ⟨m, hm, hmu⟩ := h1 u' c' hlk
          have hcc : c' ≠ c := by
            intro hh
            subst hh
            rw [hc] at hm
            cases hm
          exact ⟨m, by rw [lookupA_mapUpd_ne _ _ _ _ hcc]; exact hm, hmu⟩
      · intro c' m' hlk
        by_cases hcc : c' = c
        · subst hcc
          rw [lookupA_mapUpd_self] at hlk
          cases hlk
          exact ⟨c', by rw [lookupA_mapUpd_self]⟩
        · rw [lookupA_mapUpd_ne _ _ _ _ hcc] at hlk
          obtain ⟨c0, hc0⟩ := h2 c' m' hlk
          by_cases hu : m'.originalURL = u
          · exact ⟨c, by rw [hu, lookupA_mapUpd_self]⟩
          · exact ⟨c0, by rw [lookupA_mapUpd_ne _ _ _ _ hu]; exact hc0⟩
  | get c => exact ⟨h1, h2⟩
  | incrementClicks c =>
    constructor
    · intro u' c' hlk
      obtain ⟨m, hm, hmu⟩ := h1 u' c' hlk
      by_cases hcc : c' = c
      · subst hcc
        refine ⟨bumpClicks m, ?_, by simp [bumpClicks, hmu]⟩
        show lookupA c' (URLStore.IncrementClicks s c').urls = some (bumpClicks m)
        rw [URLStore.IncrementClicks]
        rw [lookupA_incrClicksList, if_pos rfl, hm]
        rfl
      · refine ⟨m, ?_, hmu⟩
        show lookupA c' (URLStore.IncrementClicks s c).urls = some m
        rw [URLStore.IncrementClicks]
        rw [lookupA_incrClicksList, if_neg hcc, hm]
    · intro c' m' hlk
      have hlk' : lookupA c' (URLStore.IncrementClicks s c).urls = some m' := hlk
      rw [URLStore.IncrementClicks, lookupA_incrClicksList] at hlk'
      by_cases hcc : c' = c
      · rw [if_pos hcc] at hlk'
        cases hm : lookupA c' s.urls with
        | none => rw [hm] at hlk'; simp at hlk'
        | some m0 =>
          rw [hm] at hlk'
          have hmm : bumpClicks m0 = m' := by simpa using hlk'
          obtain ⟨c0, hc0⟩ := h2 c' m0 hm
          refine ⟨c0, ?_⟩
          have hurl : m'.originalURL = m0.originalURL := by rw [← hmm]; rfl
          rw [hurl]
          exact hc0
      · rw [if_neg hcc] at hlk'
        exact h2 c' m' hlk'
  | getByOriginalURL u => exact ⟨h1, h2⟩
  | getAll => exact ⟨h1, h2⟩
  | existsCode c => exact ⟨h1, h2⟩

theorem consistency_runOps_aux (ops : List StoreOp) (s : URLStore)
    (h1 : ReverseConsistent s) (h2 : WeakPrimaryConsistent s) :
    ReverseConsistent (ops.foldl applyOp s) ∧ WeakPrimaryConsistent (ops.foldl applyOp s) := by
  induction ops generalizing s with
  | nil => exact ⟨h1, h2⟩
  | cons op rest ih =>
    obtain ⟨h1', h2'⟩ := consistency_preserved s op h1 h2
    exact ih (applyOp s op) h1' h2'

/-- C1 amended: after every sequence of Store operations from the empty
store, every reverse-index entry (u, c) points to a primary record with
code c and originalURL u, and every primary record's URL is present as a
reverse-index key — but the reverse entry may name a different code than
the record (two successful Saves with the same URL leave the URL pointing
at the later code). -/
theorem C1_index_consistency_amended (ops : List StoreOp) :
    ReverseConsistent (runOps ops) ∧ WeakPrimaryConsistent (runOps ops) :=
  consistency_runOps_aux ops NewURLStore reverseConsistent_empty weakPrimaryConsistent_empty

/-- C1 amended witness: after the two conflicting Saves, the reverse entry
for u points at code b whose record indeed holds URL u. -/
theorem C1_index_consistency_amended_witness :
    ∃ m, lookupA "b" (runOps [StoreOp.save "a" "u" 0, StoreOp.save "b" "u" 1]).urls = some m ∧
      m.originalURL = "u" :=
  (C1_index_consistency_amended [StoreOp.save "a" "u" 0, StoreOp.save "b" "u" 1]).1
    "u" "b" (by decide)

/-- C10: the generated code is a function of the random stream alone — for
the same draws, any two src strings produce the identical code, at every
length. -/
theorem C10_generated_code_ignores_src (s1 s2 : String) (length : Int)
    (draws : Nat → Option (Fin 62)) :
    GenerateShortCode s1 length draws = GenerateShortCode s2 length draws := rfl

/-- C10 witness: two different source URLs, same draws, same code. -/
theorem C10_generated_code_ignores_src_witness :
    GenerateShortCode "http://one.example" 6 drawsZero =
      GenerateShortCode "http://two.example" 6 drawsZero :=
  C10_generated_code_ignores_src "http://one.example" "http://two.example" 6 drawsZero

theorem base62Char_mem : ∀ n : Fin 62, base62Char n ∈ base62Charset.toList := by
  decide

theorem generateShortCode_six_getD (src : String) (draws : Nat → Option (Fin 62))
    (i : Nat) (h : i < 6) :
    (GenerateShortCode src 6 draws).toList.getD i ' ' =
      (match draws i with
       | none => 'a'
       | some n => base62Char n) := by
  interval_cases i <;> rfl

/-- C9: for every src and every draw stream, GenerateShortCode at length 6
returns (it cannot fail) a string of exactly 6 characters, all from the
62-symbol base62 alphabet, and at every position whose draw errored the
fixed character a is silently substituted. -/
theorem C9_generate_total_shape (src : String) (draws : Nat → Option (Fin 62)) :
    (GenerateShortCode src 6 draws).toList.length = 6 ∧
    (∀ ch ∈ (GenerateShortCode src 6 draws).toList, ch ∈ base62Charset.toList) ∧
    (∀ i : Nat, i < 6 → draws i = none →
      (GenerateShortCode src 6 draws).toList.getD i ' ' = 'a') := by
  refine ⟨rfl, ?_, ?_⟩
  · intro ch hch
    have hlist : (GenerateShortCode src 6 draws).toList =
        (List.range 6).map (fun i =>
          match draws i with
          | none => 'a'
          | some n => base62Char n) := rfl
    rw [hlist] at hch
    rcases List.mem_map.mp hch with ⟨i, _, hi⟩
    cases hd : draws i with
    | none => rw [hd] at hi; rw [← hi]; decide
    | some n => rw [hd] at hi; rw [← hi]; exact base62Char_mem n
  · intro i hi hnone
    rw [generateShortCode_six_getD src draws i hi, hnone]

/-- C9 witness: with every draw failing, the result is exactly aaaaaa. -/
theorem C9_generate_total_shape_witness :
    (GenerateShortCode "http://x" 6 drawsFail).toList.getD 0 ' ' = 'a' :=
  (C9_generate_total_shape "http://x" drawsFail).2.2 0 (by decide) rfl

theorem claimCodeChar_toNat_lt (c : Char) (hc : claimCodeChar c = true) :
    c.toNat < 128 := by
  simp [claimCodeChar] at hc
  obtain (((h | h) | h) | h) | h := hc
  · have hz : c.toNat ≤ 122 := h.2
    omega
  · have hz : c.toNat ≤ 90 := h.2
    omega
  · have hz : c.toNat ≤ 57 := h.2
    omega
  · subst h; decide
  · subst h; decide

theorem sum_map_ones {α : Type} (l : List α) (f : α → Nat)
    (h : ∀ a ∈ l, f a = 1) : (l.map f).sum = l.length := by
  induction l with
  | nil => simp
  | cons hd tl ih =>
    have hh := h hd (by simp)
    simp only [List.map_cons, List.sum_cons, List.length_cons, hh,
      ih (fun a ha => h a (by simp [ha]))]
    omega

theorem charUtf8Size_of_claim (c : Char) (hc : claimCodeChar c = true) :
    charUtf8Size c = 1 := by
  have := claimCodeChar_toNat_lt c hc
  rw [charUtf8Size, if_pos]
  omega

/-- C5: a custom code passes isValidShortCode exactly when it has between
3 and 20 characters, all ASCII alphanumeric, dash or underscore (for such
all-ASCII strings the Go byte length equals the character count; any
string with a non-ASCII character fails the per-character check anyway). -/
theorem C5_custom_code_validation (code : String) :
    isValidShortCode code = true ↔
      (3 ≤ code.toList.length ∧ code.toList.length ≤ 20 ∧
       ∀ c ∈ code.toList, claimCodeChar c = true) := by
  have hchar : ∀ c : Char,
      (('a' ≤ c && c ≤ 'z') || ('A' ≤ c && c ≤ 'Z') ||
       ('0' ≤ c && c ≤ '9') || c == '-' || c == '_') = claimCodeChar c :=
    fun c => rfl
  constructor
  · intro hv
    rw [isValidShortCode] at hv
    by_cases hlen : goLen code < 3 || goLen code > 20
    · rw [if_pos hlen] at hv; cases hv
    · rw [if_neg hlen] at hv
      have hall : ∀ c ∈ code.toList, claimCodeChar c = true := by
        intro c hcmem
        have := List.all_eq_true.mp hv c hcmem
        rwa [hchar c] at this
      have hgo : goLen code = code.toList.length :=
        sum_map_ones _ _ (fun a ha => charUtf8Size_of_claim a (hall a ha))
      simp only [Bool.or_eq_true, decide_eq_true_eq, not_or] at hlen
      push_neg at hlen
      rw [hgo] at hlen
      refine ⟨?_, ?_, hall⟩
      · omega
      · omega
  · rintro ⟨h3, h20, hall⟩
    have hgo : goLen code = code.toList.length :=
      sum_map_ones _ _ (fun a ha => charUtf8Size_of_claim a (hall a ha))
    rw [isValidShortCode, if_neg]
    · exact List.all_eq_true.mpr (fun c hcmem => by rw [hchar c]; exact hall c hcmem)
    · simp only [Bool.or_eq_true, decide_eq_true_eq, not_or]
      omega

/-- C5 witness: the three-character code a-Z passes validation. -/
theorem C5_custom_code_validation_witness : isValidShortCode "a-Z" = true :=
  (C5_custom_code_validation "a-Z").mpr (by decide)

/-- C7: whenever the normalized URL already has a reverse-index entry,
shortenCore answers with that existing code at once and leaves the store
untouched, whatever custom code was supplied — no validation, no conflict
check, no insert. -/
theorem C7_dedup_check_first (s : URLStore) (rawURL normalized customCode : String)
    (draws : Nat → Option (Fin 62)) (now : Nat) (c : String)
    (h : URLStore.GetByOriginalURL s normalized = some c) :
    shortenCore s rawURL normalized customCode draws now =
      (ShortenOutcome.success c, s) := by
  simp only [shortenCore, h]

/-- C7 witness: with URL u already mapped to abc, a syntactically invalid
custom code is ignored and the stored code is returned on an unchanged
store. -/
theorem C7_dedup_check_first_witness :
    shortenCore storeAbcU "raw" "u" "@@" drawsZero 5 =
      (ShortenOutcome.success "abc", storeAbcU) :=
  C7_dedup_check_first storeAbcU "raw" "u" "@@" drawsZero 5 "abc" (by decide)

theorem genLoopAux_attempts_le (s : URLStore) (rawURL : String)
    (draws : Nat → Option (Fin 62)) :
    ∀ fuel i, i + fuel ≤ 10 → (genLoopAux s rawURL draws i fuel).2 ≤ 10 := by
  intro fuel
  induction fuel with
  | zero => intro i h; simpa [genLoopAux] using h
  | succ m ih =>
    intro i h
    rw [genLoopAux]
    by_cases h1 : s.existsCode (genCodeAt rawURL draws i) = false
    · rw [if_pos h1]; simpa using by omega
    · rw [if_neg h1]
      by_cases h2 : i = maxAttempts - 1
      · rw [if_pos h2]; simpa using by omega
      · rw [if_neg h2]; exact ih (i + 1) (by omega)

theorem genLoopAux_exhaust (s : URLStore) (rawURL : String)
    (draws : Nat → Option (Fin 62))
    (h : ∀ k, k < 10 → s.existsCode (genCodeAt rawURL draws k) = true) :
    ∀ fuel i, i + fuel = 10 → genLoopAux s rawURL draws i fuel = (none, 10) := by
  intro fuel
  induction fuel with
  | zero =>
    intro i hfi
    rw [show i = 10 from by omega]
    rfl
  | succ m ih =>
    intro i hfi
    have hi : i < 10 := by omega
    rw [genLoopAux, h i hi]
    rw [if_neg (by simp)]
    by_cases h2 : i = maxAttempts - 1
    · rw [if_pos h2]
      have h9 : i = 9 := by simpa [maxAttempts] using h2
      rw [h9]
    · rw [if_neg h2]
      exact ih (i + 1) (by omega)

theorem genLoopAux_first_fresh (s : URLStore) (rawURL : String)
    (draws : Nat → Option (Fin 62)) (n : Nat) (hn : n ≤ 9)
    (hstale : ∀ k, k < n → s.existsCode (genCodeAt rawURL draws k) = true)
    (hfresh : s.existsCode (genCodeAt rawURL draws n) = false) :
    ∀ fuel i, i ≤ n → i + fuel = 10 →
      genLoopAux s rawURL draws i fuel = (some (genCodeAt rawURL draws n), n + 1) := by
  intro fuel
  induction fuel with
  | zero => intro i hin hfi; omega
  | succ m ih =>
    intro i hin hfi
    rw [genLoopAux]
    by_cases hi : i = n
    · subst hi
      rw [if_pos hfresh]
    · have hlt : i < n := lt_of_le_of_ne hin hi
      rw [hstale i (by omega)]
      rw [if_neg (by simp)]
      have h9 : ¬ (i = maxAttempts - 1) := by
        simp only [maxAttempts]
        omega
      rw [if_neg h9]
      exact ih (i + 1) (by omega) (by omega)

theorem finishSave_of_fresh (s : URLStore) (code u : String) (now : Nat)
    (h : lookupA code s.urls = none) :
    finishSave s code u now =
      (ShortenOutcome.success code,
        ⟨mapUpd s.urls code ⟨code, u, now, 0⟩, mapUpd s.reverse u code⟩) := by
  unfold finishSave URLStore.Save
  rw [h]

theorem genLoopAux_some_fresh (s : URLStore) (rawURL : String)
    (draws : Nat → Option (Fin 62)) :
    ∀ fuel i code n, genLoopAux s rawURL draws i fuel = (some code, n) →
      s.existsCode code = false := by
  intro fuel
  induction fuel with
  | zero => intro i code n h; simp [genLoopAux] at h
  | succ m ih =>
    intro i code n h
    rw [genLoopAux] at h
    by_cases h1 : s.existsCode (genCodeAt rawURL draws i) = false
    · rw [if_pos h1] at h
      have : genCodeAt rawURL draws i = code := by
        have := congrArg Prod.fst h
        simpa using this
      rw [← this]
      exact h1
    · rw [if_neg h1] at h
      by_cases h2 : i = maxAttempts - 1
      · rw [if_pos h2] at h
        simp at h
      · rw [if_neg h2] at h
        exact ih (i + 1) code n h

/-- C4: the auto-generation path makes at most 10 attempts; when some
attempt n (counting from 0, n at most 9) is the first whose code is not
already stored, the loop stops there, having made n+1 attempts, and uses
that code; when all 10 generated codes are already present the loop ends
with no code after exactly 10 attempts and shortenCore (no custom code,
dedup miss) answers GenerationExhausted with the store unchanged. -/
theorem C4_generation_exhaustion_bound (s : URLStore) (rawURL : String)
    (draws : Nat → Option (Fin 62)) :
    (genLoop s rawURL draws).2 ≤ 10 ∧
    (∀ n, n ≤ 9 →
      (∀ k, k < n → s.existsCode (genCodeAt rawURL draws k) = true) →
      s.existsCode (genCodeAt rawURL draws n) = false →
      genLoop s rawURL draws = (some (genCodeAt rawURL draws n), n + 1)) ∧
    ((∀ k, k < 10 → s.existsCode (genCodeAt rawURL draws k) = true) →
      genLoop s rawURL draws = (none, 10) ∧
      ∀ normalized now, URLStore.GetByOriginalURL s normalized = none →
        shortenCore s rawURL normalized "" draws now =
          (ShortenOutcome.generationExhausted, s)) := by
  refine ⟨genLoopAux_attempts_le s rawURL draws maxAttempts 0 (by simp [maxAttempts]), ?_, ?_⟩
  · intro n hn hstale hfresh
    exact genLoopAux_first_fresh s rawURL draws n hn hstale hfresh maxAttempts 0
      (by omega) (by simp [maxAttempts])
  · intro hall
    have hg : genLoop s rawURL draws = (none, 10) :=
      genLoopAux_exhaust s rawURL draws hall maxAttempts 0 (by simp [maxAttempts])
    refine ⟨hg, ?_⟩
    intro normalized now hmiss
    simp only [shortenCore, hmiss]
    rw [if_neg (by simp)]
    rw [hg]

/-- C4 witness: on a store already holding aaaaaa, the all-zero draw
stream collides on every attempt: the loop reports no code after exactly
10 attempts and shortenCore returns GenerationExhausted with the store
unchanged. -/
theorem C4_generation_exhaustion_bound_witness :
    genLoop storeAaaaaa "raw" drawsZero = (none, 10) ∧
    shortenCore storeAaaaaa "raw" "u" "" drawsZero 3 =
      (ShortenOutcome.generationExhausted, storeAaaaaa) := by
  have h := (C4_generation_exhaustion_bound storeAaaaaa "raw" drawsZero).2.2 (by decide)
  exact ⟨h.1, h.2 "u" 3 (by decide)⟩

/-- C3: starting from a store with no reverse entry and no record for the
canonical URL u, if a first auto-generating shorten of u succeeds with
code c1, then a second shorten of u — any raw URL, any draw stream, any
clock — returns the same code c1 and leaves the store unchanged, and that
store holds exactly one record whose URL is u. -/
theorem C3_dedup_idempotent (s : URLStore) (rawURL rawURL2 u : String)
    (draws draws2 : Nat → Option (Fin 62)) (now now2 : Nat) (c1 : String)
    (s1 : URLStore)
    (hrev : URLStore.GetByOriginalURL s u = none)
    (hnou : ∀ p ∈ s.urls, p.2.originalURL ≠ u)
    (hcall1 : shortenCore s rawURL u "" draws now = (ShortenOutcome.success c1, s1)) :
    shortenCore s1 rawURL2 u "" draws2 now2 = (ShortenOutcome.success c1, s1) ∧
    (s1.urls.filter (fun p => p.2.originalURL == u)).length = 1 := by
  rw [shortenCore] at hcall1
  simp only [hrev] at hcall1
  rw [if_neg (by simp)] at hcall1
  rcases hgl : genLoop s rawURL draws with ⟨code?, att⟩
  rw [hgl] at hcall1
  cases code? with
  | none => simp at hcall1
  | some code =>
    have hfresh : s.existsCode code = false :=
      genLoopAux_some_fresh s rawURL draws maxAttempts 0 code att hgl
    have hlk : lookupA code s.urls = none := by
      rw [URLStore.existsCode] at hfresh
      cases hx : lookupA code s.urls with
      | none => rfl
      | some m => rw [hx] at hfresh; simp at hfresh
    have hcall1' : finishSave s code u now = (ShortenOutcome.success c1, s1) := hcall1
    rw [finishSave_of_fresh s code u now hlk] at hcall1'
    have hc1 : c1 = code := by
      have := congrArg Prod.fst hcall1'
      simp at this
      exact this.symm
    have hs1 : s1 = ⟨mapUpd s.urls code ⟨code, u, now, 0⟩, mapUpd s.reverse u code⟩ := by
      have := congrArg Prod.snd hcall1'
      simp at this
      exact this.symm
    subst hc1
    constructor
    · rw [shortenCore]
      have hhit : URLStore.GetByOriginalURL s1 u = some c1 := by
        rw [hs1, URLStore.GetByOriginalURL]
        exact lookupA_mapUpd_self _ _ _
      simp only [hhit]
    · rw [hs1]
      have happ : mapUpd s.urls c1 ⟨c1, u, now, 0⟩ =
          s.urls ++ [(c1, ⟨c1, u, now, 0⟩)] := mapUpd_eq_append _ _ _ hlk
      simp only [happ, List.filter_append]
      have hleft : s.urls.filter (fun p => p.2.originalURL == u) = [] := by
        refine List.filter_eq_nil_iff.mpr ?_
        intro p hp
        simp only [beq_iff_eq]
        exact hnou p hp
      rw [hleft]
      simp

/-- C3 witness: shorten u twice from the empty store (the second time even
with a failing random source): same code aaaaaa both times, and the store
holds exactly one record for u. -/
theorem C3_dedup_idempotent_witness :
    shortenCore storeAfterFirst "r2" "u" "" drawsFail 1 =
      (ShortenOutcome.success "aaaaaa", storeAfterFirst) ∧
    (storeAfterFirst.urls.filter (fun p => p.2.originalURL == "u")).length = 1 :=
  C3_dedup_idempotent NewURLStore "r" "r2" "u" drawsZero drawsFail 0 1 "aaaaaa"
    storeAfterFirst (by decide) (by decide) (by decide)

/-- C8: NormalizeURL is not idempotent, against the intent the spec states
for the normalization boundary. The default-port stripping takes the part
of the host before the first colon, which cuts a bracketed IPv6 host: the
URL on the left normalizes successfully to a URL with host left-bracket,
and normalizing that output fails to parse (missing closing bracket in
host), so NormalizeURL of a NormalizeURL output is not always that
output. -/
theorem C8_normalize_not_idempotent :
    NormalizeURL "http://[::1]:80/x" = some "http://[/x" ∧
    NormalizeURL "http://[/x" = none := by
  constructor
  · rfl
  · rfl

end UrlShortener
